import Mathlib

/-!
Shallow embedding of the buddiesgolf application's domain logic.

The definitions below are translated from the repository's source files:
`src/utils/firebase.ts` (data model and data-access layer),
`src/pages/NewRound.tsx` (score totals, winner, round submission),
`src/pages/RoundHistory.tsx` (history filtering, per-player score),
`src/pages/Dashboard.tsx` (leaderboard),
`src/components/ScoreInput.tsx` (per-hole classification).

JavaScript numbers appearing as stroke counts are modelled as `Int`
(the UI restricts them to 0..10); timestamps as `Nat`; optional /
possibly-absent JS object fields as `Option`; other numeric fields
(rating, slope, latitude, handicap …) as `ℚ`.  JS string comparison
(UTF-16 code-unit lexicographic order, used by the course-name range
query) is modelled by a lexicographic order on `String.data` compared
by code point, which agrees with it on the strings occurring here.
-/

namespace BuddiesGolf

/-! ## String helpers (JS semantics) -/

/-- Lexicographic strict order on character lists, comparing code points.
Models the order JS `<`/`>` and the document store place on strings. -/
def lexLt : List Char → List Char → Bool
  | [], [] => false
  | [], _ :: _ => true
  | _ :: _, [] => false
  | a :: as, b :: bs =>
    if a.toNat < b.toNat then true
    else if a.toNat = b.toNat then lexLt as bs
    else false

/-- `s < t` on strings, JS-style. -/
def strLt (s t : String) : Bool := lexLt s.data t.data

/-- `s <= t` on strings, JS-style. -/
def strLe (s t : String) : Bool := !(strLt t s)

/-- Per-character lowercasing; models JS `String.prototype.toLowerCase`
on the ASCII range used by names in this application. -/
def lowerChars (s : String) : List Char := s.data.map Char.toLower

/-- JS `hay.includes(needle)` on already-lowered character lists. -/
def charsContains (hay needle : List Char) : Bool :=
  hay.tails.any (needle.isPrefixOf ·)

/-- `hay.toLowerCase().includes(needle.toLowerCase())` — case-insensitive
substring containment, as used by every text filter in the app. -/
def containsLower (hay needle : String) : Bool :=
  charsContains (lowerChars hay) (lowerChars needle)

/-! ## Data model (`src/utils/firebase.ts`) -/

/-- `User.stats` in `firebase.ts`. -/
structure UserStats where
  wins : Nat
  birdies : Nat
  bestScore : Int
  averageScore : ℚ
  roundsPlayed : Nat
deriving DecidableEq

/-- `User` in `firebase.ts`. -/
structure User where
  uid : String
  name : String
  photoURL : Option String := none
  homeCourse : Option String := none
  handicap : Option ℚ := none
  stats : UserStats
deriving DecidableEq

/-- `Location` in `firebase.ts`. -/
structure Location where
  address : String
  lat : ℚ
  lng : ℚ
deriving DecidableEq

/-- A stored `Course` document (`Course` in `firebase.ts`, with the
document identifier attached the way `getCourse`/`getCourses` return it).
`rating`, `slope`, `amenities` are written with defaults by
`createCourse`, so they are plain fields here. -/
structure Course where
  id : String
  name : String
  location : Location
  holes : Nat
  par : Nat
  rating : ℚ := 0
  slope : ℚ := 0
  amenities : List String := []
  phone : Option String := none
  website : Option String := none
  createdAt : Nat
  updatedAt : Nat
  createdBy : String
  isPublic : Bool
deriving DecidableEq

/-- One entry of `Round.scores`: `{ uid: string; holes: number[] }`. -/
structure PlayerScore where
  uid : String
  holes : List Int
deriving DecidableEq

/-- `Round.course : Course | string` — legacy rounds store just the course
name, newer rounds a full course snapshot. -/
inductive CourseRef where
  | legacyName (name : String)
  | snapshot (c : Course)
deriving DecidableEq

/-- `Round` in `firebase.ts`. -/
structure Round where
  id : Option String := none
  courseId : String
  courseName : String
  course : CourseRef
  date : String
  location : Option Location := none
  players : List String
  scores : List PlayerScore
  winner : Option String := none
  holeCount : Nat
  par : Nat
  createdAt : Nat
deriving DecidableEq

/-- The three document-store collections the app reads and writes. -/
structure Store where
  users : List User
  courses : List Course
  rounds : List Round
deriving DecidableEq

/-! ## Score aggregation (`src/pages/NewRound.tsx`) -/

/-- The inner reduce of `calculateTotalScore`:
`holes.reduce((sum, score) => sum + (score || 0), 0)`.
JS `score || 0` maps the falsy value `0` to `0` and keeps any other
number, i.e. `if score = 0 then 0 else score` on `Int`. -/
def sumHoles (holes : List Int) : Int :=
  holes.foldl (fun sum score => sum + (if score = 0 then 0 else score)) 0

/-- `calculateTotalScore` in `NewRound.tsx`:
`scores[uid]?.reduce((sum, score) => sum + (score || 0), 0) || 0`.
A missing entry yields `0`; the trailing `|| 0` maps a `0` result to
`0`, the identity on `Int`. -/
def calculateTotalScore (scores : String → Option (List Int)) (uid : String) : Int :=
  match scores uid with
  | some holes => sumHoles holes
  | none => 0

/-- `getPlayerScore` in `RoundHistory.tsx`: find the player's score entry
and sum its holes without the `|| 0` guard; `0` when the player has no
entry in the round. -/
def getPlayerScore (r : Round) (uid : String) : Int :=
  match r.scores.find? (fun s => s.uid == uid) with
  | some ps => ps.holes.foldl (fun sum score => sum + score) 0
  | none => 0

/-- `getScoreLabel` in `ScoreInput.tsx`. The empty string is the
"no label" case (score 0/unset and negatives). -/
def getScoreLabel (score : Int) : String :=
  if score = 1 then "Hole in One!"
  else if score = 2 then "Eagle"
  else if score = 3 then "Birdie"
  else if score = 4 then "Par"
  else if score = 5 then "Bogey"
  else if 6 ≤ score then "Double+"
  else ""

/-- `getScoreColor` in `ScoreInput.tsx` (same branch structure as
`getScoreLabel`, returning CSS classes). -/
def getScoreColor (score : Int) : String :=
  if score = 1 then "bg-green-100 text-green-800 border-green-300"
  else if score = 2 then "bg-blue-100 text-blue-800 border-blue-300"
  else if score = 3 then "bg-purple-100 text-purple-800 border-purple-300"
  else if score = 4 then "bg-gray-100 text-gray-800 border-gray-300"
  else if score = 5 then "bg-yellow-100 text-yellow-800 border-yellow-300"
  else if 6 ≤ score then "bg-red-100 text-red-800 border-red-300"
  else "bg-gray-50 text-gray-500 border-gray-200"

/-- One step of the `reduce` in `getWinner`:
`current.total < winner.total ? current : winner`. -/
def winnerStep (winner current : String × Int) : String × Int :=
  if current.2 < winner.2 then current else winner

/-- `getWinner` in `NewRound.tsx`: map the selected players to
`{uid, total}` pairs and reduce keeping the strictly smaller total.
JS `reduce` without an initial value throws on an empty array, modelled
by `none`; on a non-empty array it folds the tail starting from the
head. -/
def getWinner (selectedPlayers : List String) (scores : String → Option (List Int)) :
    Option (String × Int) :=
  match selectedPlayers.map (fun uid => (uid, calculateTotalScore scores uid)) with
  | [] => none
  | h :: t => some (t.foldl winnerStep h)

/-! ## Leaderboard (`src/pages/Dashboard.tsx`) -/

/-- Stable insertion for the descending-by-wins sort: `u` is placed
before the first element with at most as many wins, i.e. after every
element with strictly more wins, and before equal-wins elements that
followed it in the input. -/
def insertWins (u : User) : List User → List User
  | [] => [u]
  | v :: vs => if v.stats.wins ≤ u.stats.wins then u :: v :: vs else v :: insertWins u vs

/-- Stable sort of users by descending win count. -/
def sortByWinsDesc : List User → List User
  | [] => []
  | u :: us => insertWins u (sortByWinsDesc us)

/-- `getLeaderboard` in `Dashboard.tsx`:
`allUsers.sort((a, b) => b.stats.wins - a.stats.wins).slice(0, 5)`.
`Array.prototype.sort` is stable (required since ES2019), so with this
comparator it is exactly the stable descending sort by win count. -/
def getLeaderboard (allUsers : List User) : List User :=
  (sortByWinsDesc allUsers).take 5

/-! ## Round-history filtering (`src/pages/RoundHistory.tsx`) -/

/-- A TOTAL name reading of the `Course | string` union, used only by
the completed-run model `filterRounds` below (whose course predicate no
property here exercises).  It is NOT the source call: the source's
`round.course.toLowerCase()` is partial — it throws a TypeError on the
course snapshots `NewRound` persists — and is embedded faithfully as
`Round.courseLower`, with the fallible filtering effect as
`filterRoundsRun`. -/
def Round.courseText (r : Round) : String :=
  match r.course with
  | .legacyName s => s
  | .snapshot c => c.name

/-- `allUsers.find(user => user.name.toLowerCase().includes(playerFilter.toLowerCase()))`:
the first fetched user whose display name contains the search string,
case-insensitively. -/
def findPlayerByName (allUsers : List User) (playerFilter : String) : Option User :=
  allUsers.find? (fun u => containsLower u.name playerFilter)

/-- The filtering `useEffect` in `RoundHistory.tsx`: starting from the
fetched rounds, apply the course, player, and date filters in turn,
skipping each filter whose value is the empty string; the player filter
is also skipped when no fetched user's name matches the search string. -/
def filterRounds (rounds : List Round) (allUsers : List User)
    (courseFilter playerFilter dateFilter : String) : List Round :=
  let afterCourse :=
    if courseFilter ≠ "" then
      rounds.filter (fun r => containsLower (Round.courseText r) courseFilter)
    else rounds
  let afterPlayer :=
    if playerFilter ≠ "" then
      match findPlayerByName allUsers playerFilter with
      | some targetUser => afterCourse.filter (fun r => r.players.contains targetUser.uid)
      | none => afterCourse
    else afterCourse
  if dateFilter ≠ "" then afterPlayer.filter (fun r => r.date == dateFilter) else afterPlayer

/-- `round.course.toLowerCase()` as the source executes it: the lowered
characters for the legacy string variant, and `none` — the thrown
TypeError (`toLowerCase` is not a function on a `Course` object) — for
the course snapshots `NewRound` persists. -/
def Round.courseLower (r : Round) : Option (List Char) :=
  match r.course with
  | .legacyName s => some (lowerChars s)
  | .snapshot _ => none

/-- The course predicate on a round for which the `toLowerCase` call
returned: used only where `Round.courseLower` is `some` (the `false`
branch is unreachable under that guard). -/
def courseMatches (courseFilter : String) (r : Round) : Bool :=
  match Round.courseLower r with
  | some lc => charsContains lc (lowerChars courseFilter)
  | none => false

/-- The course-filter pass
`filtered.filter(round => round.course.toLowerCase().includes(courseFilter.toLowerCase()))`
with its failure modelled: `none` when the callback throws, which
happens at the first round whose `course` field is a snapshot object. -/
def courseFilterPass (courseFilter : String) : List Round → Option (List Round)
  | [] => some []
  | r :: rs =>
    match Round.courseLower r with
    | none => none
    | some lc =>
      match courseFilterPass courseFilter rs with
      | none => none
      | some rest =>
        some (if charsContains lc (lowerChars courseFilter) then r :: rest else rest)

/-- The player and date passes of the filtering `useEffect` (they call
only `Array.includes` and string equality, and cannot throw). -/
def applyPlayerDate (afterCourse : List Round) (allUsers : List User)
    (playerFilter dateFilter : String) : List Round :=
  let afterPlayer :=
    if playerFilter ≠ "" then
      match findPlayerByName allUsers playerFilter with
      | some targetUser => afterCourse.filter (fun r => r.players.contains targetUser.uid)
      | none => afterCourse
    else afterCourse
  if dateFilter ≠ "" then afterPlayer.filter (fun r => r.date == dateFilter) else afterPlayer

/-- The filtering `useEffect` in `RoundHistory.tsx`, faithfully: the
course pass may throw (`none`), in which case the effect aborts and no
filtered list is produced; otherwise the player and date passes run and
the filtered list is the result. -/
def filterRoundsRun (rounds : List Round) (allUsers : List User)
    (courseFilter playerFilter dateFilter : String) : Option (List Round) :=
  match (if courseFilter ≠ "" then courseFilterPass courseFilter rounds else some rounds) with
  | none => none
  | some afterCourse => some (applyPlayerDate afterCourse allUsers playerFilter dateFilter)

/-! ## Course data access (`src/utils/firebase.ts`) -/

/-- The argument of `createCourse`: `Omit<Course, 'id'|'createdAt'|'updatedAt'>`
whose fields may be absent at runtime (`createCourse` checks presence with
the `in` operator); an absent field is `none`. -/
structure CoursePayload where
  name : Option String := none
  location : Option Location := none
  holes : Option Nat := none
  par : Option Nat := none
  rating : Option ℚ := none
  slope : Option ℚ := none
  amenities : Option (List String) := none
  phone : Option String := none
  website : Option String := none
  isPublic : Option Bool := none
deriving DecidableEq

/-- `requiredFields.filter(field => !(field in courseData))` in `createCourse`. -/
def missingFields (p : CoursePayload) : List String :=
  (if p.name.isNone then ["name"] else []) ++
  (if p.location.isNone then ["location"] else []) ++
  (if p.holes.isNone then ["holes"] else []) ++
  (if p.par.isNone then ["par"] else [])

/-- JS `x || d` on an optional boolean field (`false` is falsy). -/
def jsOrBool (x : Option Bool) (d : Bool) : Bool :=
  match x with
  | some v => if v then v else d
  | none => d

/-- JS `x || d` on an optional numeric field (`0` is falsy). -/
def jsOrRat (x : Option ℚ) (d : ℚ) : ℚ :=
  match x with
  | some v => if v = 0 then d else v
  | none => d

/-- JS `x || d` on an optional array field (every array is truthy). -/
def jsOrList (x : Option (List String)) (d : List String) : List String :=
  match x with
  | some v => v
  | none => d

/-- `createCourse` in `firebase.ts`, as a state transformer on the course
collection. `now` stands for `Timestamp.now()` and `newId` for the
document id `addDoc` generates (never empty in the real store). The
result is the new collection plus `some message` when the call throws.
The final catch-all branch is unreachable: an empty `missingFields`
forces the four matched fields to be present. -/
def createCourse (p : CoursePayload) (userId : String) (now : Nat) (newId : String)
    (courses : List Course) : List Course × Option String :=
  if userId = "" then
    (courses, some "Failed to create course: User ID is required to create a course")
  else if missingFields p ≠ [] then
    (courses, some ("Failed to create course: Missing required fields: " ++
      String.intercalate ", " (missingFields p)))
  else
    match p.name, p.location, p.holes, p.par with
    | some name, some location, some holes, some par =>
      let newCourse : Course :=
        { id := newId, name := name, location := location, holes := holes, par := par
          rating := jsOrRat p.rating 0, slope := jsOrRat p.slope 0
          amenities := jsOrList p.amenities [], phone := p.phone, website := p.website
          createdAt := now, updatedAt := now, createdBy := userId
          isPublic := jsOrBool p.isPublic false }
      let written := courses ++ [newCourse]
      if newId = "" then
        (written, some "Failed to create course: Failed to get course ID after creation")
      else (written, none)
    | _, _, _, _ => (courses, some "Failed to create course: Missing required fields: ")

/-- The options object of `getCourses`. -/
structure GetCoursesOptions where
  limit : Option Nat := none
  userId : Option String := none
  searchTerm : Option String := none

/-- JS truthiness of an optional string option (`undefined` and `''` are falsy). -/
def optStrTruthy : Option String → Bool
  | some s => !(s == "")
  | none => false

/-- JS truthiness of an optional count option (`undefined` and `0` are falsy). -/
def optNatTruthy : Option Nat → Bool
  | some n => !(n == 0)
  | none => false

/-- The `''` sentinel `getCourses` appends for its name range query. -/
def highSuffix : String := String.singleton (Char.ofNat 63743)

/-- Stable insertion for the ascending-by-name ordering of `getCourses`
results (`orderBy('name')`). -/
def insertByName (c : Course) : List Course → List Course
  | [] => [c]
  | d :: ds => if strLe c.name d.name then c :: d :: ds else d :: insertByName c ds

/-- Courses ordered by name ascending. -/
def sortByNameAsc : List Course → List Course
  | [] => []
  | c :: cs => insertByName c (sortByNameAsc cs)

/-- `getCourses` in `firebase.ts`, as the query it issues evaluated over
the course collection: owner filter when `userId` is set (else
public-only), the `[term, term + '']` name range when a search
term is set, `orderBy('name')`, and `limit` when a cap is set. -/
def getCourses (options : GetCoursesOptions) (courses : List Course) : List Course :=
  let ownerFiltered :=
    if optStrTruthy options.userId then
      courses.filter (fun c => c.createdBy == options.userId.getD "")
    else
      courses.filter (fun c => c.isPublic)
  let searchFiltered :=
    if optStrTruthy options.searchTerm then
      let term := options.searchTerm.getD ""
      ownerFiltered.filter (fun c => strLe term c.name && strLe c.name (term ++ highSuffix))
    else ownerFiltered
  let ordered := sortByNameAsc searchFiltered
  if optNatTruthy options.limit then ordered.take (options.limit.getD 0) else ordered

/-- `deleteCourse` in `firebase.ts`: delete the course document with the
given id; nothing else is read or written. -/
def deleteCourse (courseId : String) (s : Store) : Store :=
  { s with courses := s.courses.filter (fun c => !(c.id == courseId)) }

/-! ## Round submission (`src/pages/NewRound.tsx`) -/

/-- `validateForm` in `NewRound.tsx`, returning `some message` on the
first failing check. The per-entry null/undefined check of the source
cannot fail here, where entries are integers. -/
def validateForm (selectedCourse : Option Course) (selectedPlayers : List String)
    (scores : String → Option (List Int)) : Option String :=
  if selectedCourse.isNone then some "Please select a course"
  else if selectedPlayers.length < 1 then some "Please select at least one player"
  else if selectedPlayers.any
      (fun uid => (scores uid).isNone || ((scores uid).getD []).isEmpty) then
    some "Please enter scores for all selected players"
  else none

/-- The `roundData` record built in `handleSubmit` and passed to
`createRound`.  `selectedCourse.holes || 18` and `selectedCourse.par || 72`
are the JS falsy defaults. -/
def mkRoundData (selectedCourse : Course) (roundDate : String)
    (selectedPlayers : List String) (scores : String → Option (List Int))
    (now : Nat) : Round :=
  { courseId := selectedCourse.id
    courseName := selectedCourse.name
    course := .snapshot selectedCourse
    date := roundDate
    players := selectedPlayers
    scores := selectedPlayers.map (fun uid => { uid := uid, holes := (scores uid).getD [] })
    winner := (getWinner selectedPlayers scores).map (·.1)
    holeCount := if selectedCourse.holes = 0 then 18 else selectedCourse.holes
    par := if selectedCourse.par = 0 then 72 else selectedCourse.par
    location := some selectedCourse.location
    createdAt := now }

/-- `handleSubmit` in `NewRound.tsx`, reduced to the round it persists:
`none` when validation fails (nothing is written), `some round` for the
record handed to `createRound`. -/
def handleSubmit (selectedCourse : Option Course) (roundDate : String)
    (selectedPlayers : List String) (scores : String → Option (List Int))
    (now : Nat) : Option Round :=
  match validateForm selectedCourse selectedPlayers scores with
  | some _ => none
  | none =>
    match selectedCourse with
    | some c => some (mkRoundData c roundDate selectedPlayers scores now)
    | none => none

/-- The score-state initialisation in `fetchUsers` (`NewRound.tsx`):
every fetched user's array is `new Array(holeCount).fill(0)`, where
`holeCount` is the scorecard state, not the selected course's hole
count. -/
def initialScores (users : List User) (holeCount : Nat) : String → Option (List Int) :=
  fun uid =>
    if users.any (fun u => u.uid == uid) then some (List.replicate holeCount 0) else none

/-- Modelled from the spec: the "half-open lexicographic range
[term, term + highest-codepoint-suffix)" that §4.2 says the course
search uses, stated as a predicate on names for comparison with the
range `getCourses` actually issues. -/
def specHalfOpenNameRange (term name : String) : Prop :=
  strLe term name = true ∧ strLt name (term ++ highSuffix) = true

/-! ## Theorems -/

/-- `sumHoles` is the sum of the entries with `0` mapped to `0`. -/
lemma sumHoles_eq_sum_map (a : List Int) :
    sumHoles a = (a.map (fun x => if x = 0 then 0 else x)).sum := by
  unfold sumHoles
  rw [List.sum_eq_foldl, List.foldl_map]

/-- C1: for every hole-score array whose entries are each either the
unset marker `0` or a stroke count `1..10`, the total-score function
(`calculateTotalScore`'s reduce in `NewRound.tsx`) returns the
non-negative sum of the entries with an unset entry contributing `0`,
i.e. `sum (max entry 0)`; the empty array yields `0` and `[4,4,4]`
yields `12`. -/
theorem total_score_sums_entries (a : List Int)
    (h : ∀ x ∈ a, x = 0 ∨ (1 ≤ x ∧ x ≤ 10)) :
    sumHoles a = (a.map (fun x => max x 0)).sum ∧
    0 ≤ sumHoles a ∧ sumHoles [] = 0 ∧ sumHoles [4, 4, 4] = 12 := by
  have hmap : a.map (fun x => if x = 0 then 0 else x) = a.map (fun x => max x 0) := by
    apply List.map_congr_left
    intro x hx
    rcases h x hx with h0 | ⟨h1, _⟩
    · simp [h0]
    · rw [if_neg (by omega), max_eq_left (by omega)]
  have hsum : sumHoles a = (a.map (fun x => max x 0)).sum := by
    rw [sumHoles_eq_sum_map, hmap]
  refine ⟨hsum, ?_, by decide, by decide⟩
  rw [hsum]
  apply List.sum_nonneg
  intro y hy
  obtain ⟨x, _, rfl⟩ := List.mem_map.mp hy
  exact le_max_right x 0

/-- Witness for `total_score_sums_entries` at `a = [4,4,4]`. -/
theorem total_score_sums_entries_witness :
    (∀ x ∈ ([4, 4, 4] : List Int), x = 0 ∨ (1 ≤ x ∧ x ≤ 10)) ∧
    (sumHoles [4, 4, 4] = (([4, 4, 4] : List Int).map (fun x => max x 0)).sum ∧
      0 ≤ sumHoles [4, 4, 4] ∧ sumHoles [] = 0 ∧ sumHoles [4, 4, 4] = 12) :=
  ⟨by decide, total_score_sums_entries [4, 4, 4] (by decide)⟩

/-- C3: the per-hole classification of `ScoreInput.tsx` is total on
stroke counts: 1 ↦ hole in one, 2 ↦ eagle, 3 ↦ birdie, 4 ↦ par,
5 ↦ bogey, every count ≥ 6 ↦ "double bogey or worse" (`"Double+"`),
and 0/unset (together with anything below 1) ↦ the empty "no label"
string; in particular `label 7 = "Double+"` and `label 0 = ""`. -/
theorem score_label_total :
    getScoreLabel 1 = "Hole in One!" ∧ getScoreLabel 2 = "Eagle" ∧
    getScoreLabel 3 = "Birdie" ∧ getScoreLabel 4 = "Par" ∧
    getScoreLabel 5 = "Bogey" ∧
    (∀ s : Int, 6 ≤ s → getScoreLabel s = "Double+") ∧
    getScoreLabel 7 = "Double+" ∧
    (∀ s : Int, s ≤ 0 → getScoreLabel s = "") ∧
    getScoreLabel 0 = "" := by
  refine ⟨by decide, by decide, by decide, by decide, by decide, ?_, by decide, ?_, by decide⟩
  · intro s hs
    unfold getScoreLabel
    rw [if_neg (by omega), if_neg (by omega), if_neg (by omega), if_neg (by omega),
      if_neg (by omega), if_pos hs]
  · intro s hs
    unfold getScoreLabel
    rw [if_neg (by omega), if_neg (by omega), if_neg (by omega), if_neg (by omega),
      if_neg (by omega), if_neg (by omega)]

/-- Witness for `score_label_total` at scores `7` and `0`. -/
theorem score_label_total_witness :
    (6 ≤ (7 : Int) ∧ getScoreLabel 7 = "Double+") ∧
    ((0 : Int) ≤ 0 ∧ getScoreLabel 0 = "") :=
  ⟨⟨by decide, score_label_total.2.2.2.2.2.1 7 (by decide)⟩,
    ⟨by decide, score_label_total.2.2.2.2.2.2.2.1 0 (by decide)⟩⟩

/-- C9: deleting a course only removes course records with that id; the
round collection (and with it every round's denormalized course
name/hole count/par) and the user collection are untouched, and the
resulting course collection does not depend on the rounds or users at
all — no referential check against existing rounds is performed. -/
theorem delete_course_frame (s : Store) (courseId : String) :
    (deleteCourse courseId s).rounds = s.rounds ∧
    (deleteCourse courseId s).users = s.users ∧
    (∀ c : Course, c ∈ (deleteCourse courseId s).courses ↔ c ∈ s.courses ∧ c.id ≠ courseId) ∧
    (∀ rounds' users',
      (deleteCourse courseId { users := users', courses := s.courses, rounds := rounds' }).courses =
        (deleteCourse courseId s).courses) := by
  refine ⟨rfl, rfl, ?_, fun _ _ => rfl⟩
  intro c
  simp [deleteCourse, List.mem_filter]

/-- `insertWins` only reorders: the result is a permutation of `u :: l`. -/
lemma insertWins_perm (u : User) (l : List User) : (insertWins u l).Perm (u :: l) := by
  induction l with
  | nil => simp [insertWins]
  | cons v vs ih =>
    unfold insertWins
    by_cases hv : v.stats.wins ≤ u.stats.wins
    · rw [if_pos hv]
    · rw [if_neg hv]
      exact .trans (.cons v ih) (.swap u v vs)

/-- The stable sort only reorders the users. -/
lemma sortByWinsDesc_perm (l : List User) : (sortByWinsDesc l).Perm l := by
  induction l with
  | nil => simp [sortByWinsDesc]
  | cons u us ih =>
    exact .trans (insertWins_perm u (sortByWinsDesc us)) (.cons u ih)

/-- `insertWins` preserves descending order by wins. -/
lemma insertWins_pairwise (u : User) (l : List User)
    (h : l.Pairwise (fun a b => b.stats.wins ≤ a.stats.wins)) :
    (insertWins u l).Pairwise (fun a b => b.stats.wins ≤ a.stats.wins) := by
  induction l with
  | nil => simp [insertWins]
  | cons v vs ih =>
    rw [List.pairwise_cons] at h
    unfold insertWins
    by_cases hv : v.stats.wins ≤ u.stats.wins
    · rw [if_pos hv, List.pairwise_cons]
      refine ⟨?_, List.pairwise_cons.mpr h⟩
      intro w hw
      rcases List.mem_cons.mp hw with rfl | hw
      · exact hv
      · exact le_trans (h.1 w hw) hv
    · rw [if_neg hv, List.pairwise_cons]
      refine ⟨?_, ih h.2⟩
      intro w hw
      have hw' := (insertWins_perm u vs).mem_iff.mp hw
      rcases List.mem_cons.mp hw' with rfl | hw'
      · omega
      · exact h.1 w hw'

/-- The stable sort is descending by wins. -/
lemma sortByWinsDesc_pairwise (l : List User) :
    (sortByWinsDesc l).Pairwise (fun a b => b.stats.wins ≤ a.stats.wins) := by
  induction l with
  | nil => simp [sortByWinsDesc]
  | cons u us ih => exact insertWins_pairwise u (sortByWinsDesc us) ih

/-- Stability of one insertion, phrased through filtering by win count:
`u` is inserted in front of every element with its own win count, and
elements with any other win count keep their relative order. -/
lemma insertWins_filter (u : User) (l : List User) (w : Nat) :
    (insertWins u l).filter (fun v => v.stats.wins == w) =
      if u.stats.wins = w then u :: l.filter (fun v => v.stats.wins == w)
      else l.filter (fun v => v.stats.wins == w) := by
  induction l with
  | nil => by_cases hw : u.stats.wins = w <;> simp [insertWins, List.filter_cons, hw]
  | cons v vs ih =>
    unfold insertWins
    by_cases hv : v.stats.wins ≤ u.stats.wins
    · rw [if_pos hv]
      by_cases hw : u.stats.wins = w <;> simp [List.filter_cons, hw]
    · rw [if_neg hv, List.filter_cons, ih]
      by_cases hw : u.stats.wins = w
      · have hvw : ¬ (v.stats.wins = w) := by omega
        simp [hw, hvw, List.filter_cons]
      · by_cases hvw : v.stats.wins = w <;> simp [hw, hvw, List.filter_cons]

/-- Stability of the whole sort: filtering by any win count gives the
same subsequence before and after sorting, i.e. users with equal win
counts keep their original relative order. -/
lemma sortByWinsDesc_filter (l : List User) (w : Nat) :
    (sortByWinsDesc l).filter (fun v => v.stats.wins == w) =
      l.filter (fun v => v.stats.wins == w) := by
  induction l with
  | nil => rfl
  | cons u us ih =>
    show (insertWins u (sortByWinsDesc us)).filter _ = _
    rw [insertWins_filter]
    by_cases hw : u.stats.wins = w <;> simp [hw, ih, List.filter_cons]

/-- Leaderboard example user A with 3 wins (claim C4's concrete case). -/
def exUserA : User :=
  { uid := "A", name := "A",
    stats := { wins := 3, birdies := 0, bestScore := 999, averageScore := 0, roundsPlayed := 3 } }

/-- Leaderboard example user B with 5 wins. -/
def exUserB : User :=
  { uid := "B", name := "B",
    stats := { wins := 5, birdies := 0, bestScore := 999, averageScore := 0, roundsPlayed := 5 } }

/-- Leaderboard example user C with 5 wins. -/
def exUserC : User :=
  { uid := "C", name := "C",
    stats := { wins := 5, birdies := 0, bestScore := 999, averageScore := 0, roundsPlayed := 5 } }

/-- Leaderboard example user D with 1 win. -/
def exUserD : User :=
  { uid := "D", name := "D",
    stats := { wins := 1, birdies := 0, bestScore := 999, averageScore := 0, roundsPlayed := 1 } }

/-- C4: `getLeaderboard` returns at most five entries, in descending
order of win count, drawn from the stable descending sort of the fetched
users — users with equal win counts keep their fetched relative order
(the filter equations) — and on users A,B,C,D with wins `[3,5,5,1]` it
returns `[B,C,A,D]`. -/
theorem leaderboard_spec (allUsers : List User) :
    (getLeaderboard allUsers).length ≤ 5 ∧
    (getLeaderboard allUsers).Pairwise (fun a b => b.stats.wins ≤ a.stats.wins) ∧
    (sortByWinsDesc allUsers).Perm allUsers ∧
    (∀ w : Nat, (sortByWinsDesc allUsers).filter (fun v => v.stats.wins == w) =
      allUsers.filter (fun v => v.stats.wins == w)) ∧
    getLeaderboard allUsers = (sortByWinsDesc allUsers).take 5 ∧
    getLeaderboard [exUserA, exUserB, exUserC, exUserD] =
      [exUserB, exUserC, exUserA, exUserD] := by
  refine ⟨List.length_take_le 5 _, ?_, sortByWinsDesc_perm allUsers, ?_, rfl, by decide⟩
  · exact (sortByWinsDesc_pairwise allUsers).sublist (List.take_sublist 5 _)
  · intro w
    exact sortByWinsDesc_filter allUsers w

/-- The fold `getWinner` performs, on the player identifiers themselves
(keys compared through `k`): keep the current holder unless the next
player's key is strictly smaller. -/
def foldMin (k : String → Int) (h : String) (l : List String) : String :=
  l.foldl (fun w a => if k a < k w then a else w) h

/-- The strict-`<` fold returns the first element of `h :: l` attaining
the minimum key: everything before it is strictly larger, everything in
the list is at least it. -/
lemma foldMin_spec (k : String → Int) (l : List String) : ∀ h : String,
    ∃ pre post, h :: l = pre ++ foldMin k h l :: post ∧
      (∀ q ∈ pre, k (foldMin k h l) < k q) ∧
      (∀ c ∈ h :: l, k (foldMin k h l) ≤ k c) := by
  induction l with
  | nil =>
    intro h
    exact ⟨[], [], rfl, by simp, by simp [foldMin]⟩
  | cons a t ih =>
    intro h
    have hstep : foldMin k h (a :: t) = foldMin k (if k a < k h then a else h) t := rfl
    by_cases hah : k a < k h
    · obtain ⟨pre, post, heq, hpre, hall⟩ := ih a
      have hr : foldMin k h (a :: t) = foldMin k a t := by rw [hstep, if_pos hah]
      rw [hr]
      refine ⟨h :: pre, post, ?_, ?_, ?_⟩
      · rw [List.cons_append, ← heq]
      · intro q hq
        rcases List.mem_cons.mp hq with rfl | hq
        · exact lt_of_le_of_lt (hall a (List.mem_cons_self a t)) hah
        · exact hpre q hq
      · intro c hc
        rcases List.mem_cons.mp hc with rfl | hc
        · exact le_of_lt (lt_of_le_of_lt (hall a (List.mem_cons_self a t)) hah)
        · exact hall c hc
    · obtain ⟨pre, post, heq, hpre, hall⟩ := ih h
      have hr : foldMin k h (a :: t) = foldMin k h t := by rw [hstep, if_neg hah]
      rw [hr]
      have hha : k h ≤ k a := le_of_not_lt hah
      cases pre with
      | nil =>
        have hh : h = foldMin k h t := (List.cons.injEq _ _ _ _).mp heq |>.1
        refine ⟨[], a :: t, ?_, by simp, ?_⟩
        · simp [← hh]
        · intro c hc
          rcases List.mem_cons.mp hc with rfl | hc
          · exact le_of_eq (congrArg k hh.symm)
          · rcases List.mem_cons.mp hc with rfl | hc
            · exact le_trans (le_of_eq (congrArg k hh.symm)) hha
            · exact hall c (List.mem_cons_of_mem h hc)
      | cons p ps =>
        have hph := (List.cons.injEq _ _ _ _).mp heq
        have hp : p = h := hph.1.symm
        have ht : t = ps ++ foldMin k h t :: post := hph.2
        have hrh : k (foldMin k h t) < k h := by
          have := hpre p (List.mem_cons_self p ps)
          rwa [hp] at this
        refine ⟨h :: a :: ps, post, ?_, ?_, ?_⟩
        · conv_lhs => rw [ht]
          simp
        · intro q hq
          rcases List.mem_cons.mp hq with rfl | hq
          · exact hrh
          · rcases List.mem_cons.mp hq with rfl | hq
            · exact lt_of_lt_of_le hrh hha
            · exact hpre q (List.mem_cons_of_mem p hq)
        · intro c hc
          rcases List.mem_cons.mp hc with rfl | hc
          · exact hall c (List.mem_cons_self c t)
          · rcases List.mem_cons.mp hc with rfl | hc
            · exact le_of_lt (lt_of_lt_of_le hrh hha)
            · exact hall c (List.mem_cons_of_mem h hc)

/-- Folding `winnerStep` over the `{uid, total}` pairs is `foldMin` on
the identifiers with the totals as keys. -/
lemma foldl_winnerStep_map (scores : String → Option (List Int)) (l : List String) :
    ∀ u : String,
      (l.map (fun uid => (uid, calculateTotalScore scores uid))).foldl winnerStep
          (u, calculateTotalScore scores u) =
        (foldMin (calculateTotalScore scores) u l,
          calculateTotalScore scores (foldMin (calculateTotalScore scores) u l)) := by
  induction l with
  | nil => intro u; rfl
  | cons a t ih =>
    intro u
    have hstep :
        winnerStep (u, calculateTotalScore scores u) (a, calculateTotalScore scores a) =
          ((if calculateTotalScore scores a < calculateTotalScore scores u then a else u),
            calculateTotalScore scores
              (if calculateTotalScore scores a < calculateTotalScore scores u then a else u)) := by
      by_cases hau : calculateTotalScore scores a < calculateTotalScore scores u
      · simp [winnerStep, hau]
      · simp [winnerStep, hau]
    simp only [List.map_cons, List.foldl_cons]
    rw [hstep]
    exact ih _

/-- C2: on an empty player list `getWinner` yields no winner (the JS
`reduce` throws); on any non-empty selection it returns exactly one
`{uid, total}` pair whose identifier is one of the selected players,
whose total is that player's `calculateTotalScore`, and whose total is
less than or equal to every selected player's total; the returned player
is the first in selection order attaining the minimum (everyone before
it is strictly worse), and in particular players `["A", "B"]` with equal
totals `72` yield winner `A`. -/
theorem winner_spec (selectedPlayers : List String) (scores : String → Option (List Int))
    (h : selectedPlayers ≠ []) :
    getWinner [] scores = none ∧
    getWinner ["A", "B"] (fun _ => some (List.replicate 18 4)) = some ("A", 72) ∧
    ∃ w : String × Int, getWinner selectedPlayers scores = some w ∧
      w.1 ∈ selectedPlayers ∧
      w.2 = calculateTotalScore scores w.1 ∧
      (∀ p ∈ selectedPlayers, w.2 ≤ calculateTotalScore scores p) ∧
      ∃ pre post, selectedPlayers = pre ++ w.1 :: post ∧
        ∀ q ∈ pre, w.2 < calculateTotalScore scores q := by
  refine ⟨rfl, by decide, ?_⟩
  cases selectedPlayers with
  | nil => exact absurd rfl h
  | cons p pt =>
    obtain ⟨pre, post, heq, hpre, hall⟩ := foldMin_spec (calculateTotalScore scores) pt p
    refine ⟨(foldMin (calculateTotalScore scores) p pt,
      calculateTotalScore scores (foldMin (calculateTotalScore scores) p pt)), ?_, ?_, rfl,
      ?_, pre, post, heq, ?_⟩
    · show some _ = some _
      exact congrArg some (foldl_winnerStep_map scores pt p)
    · rw [heq]
      exact List.mem_append_right pre (List.mem_cons_self _ post)
    · intro q hq
      exact hall q (heq ▸ hq)
    · intro q hq
      exact hpre q hq

/-- Witness for `winner_spec`: players `["A", "B"]` with all-fours
scorecards (totals 72 and 72). -/
theorem winner_spec_witness :
    (["A", "B"] : List String) ≠ [] ∧
    (getWinner [] (fun _ => some (List.replicate 18 4)) = none ∧
      getWinner ["A", "B"] (fun _ => some (List.replicate 18 4)) = some ("A", 72) ∧
      ∃ w : String × Int,
        getWinner ["A", "B"] (fun _ => some (List.replicate 18 4)) = some w ∧
        w.1 ∈ (["A", "B"] : List String) ∧
        w.2 = calculateTotalScore (fun _ => some (List.replicate 18 4)) w.1 ∧
        (∀ p ∈ (["A", "B"] : List String),
          w.2 ≤ calculateTotalScore (fun _ => some (List.replicate 18 4)) p) ∧
        ∃ pre post, (["A", "B"] : List String) = pre ++ w.1 :: post ∧
          ∀ q ∈ pre, w.2 < calculateTotalScore (fun _ => some (List.replicate 18 4)) q) :=
  ⟨by decide, winner_spec ["A", "B"] (fun _ => some (List.replicate 18 4)) (by decide)⟩

/-- The course pass throws as soon as any fetched round stores a
course snapshot. -/
lemma courseFilterPass_none {courseFilter : String} {l : List Round} (r : Round)
    (hr : r ∈ l) (hn : Round.courseLower r = none) :
    courseFilterPass courseFilter l = none := by
  induction l with
  | nil => cases hr
  | cons a t ih =>
    rcases List.mem_cons.mp hr with rfl | hr
    · unfold courseFilterPass
      rw [hn]
    · unfold courseFilterPass
      cases ha : Round.courseLower a with
      | none => rfl
      | some lc => rw [ih hr]

/-- When every fetched round stores the legacy string course, the course
pass completes and is the plain filter by `courseMatches`. -/
lemma courseFilterPass_some {courseFilter : String} {l : List Round}
    (h : ∀ r ∈ l, (Round.courseLower r).isSome = true) :
    courseFilterPass courseFilter l = some (l.filter (courseMatches courseFilter)) := by
  induction l with
  | nil => rfl
  | cons a t ih =>
    have ha := h a (List.mem_cons_self a t)
    cases hal : Round.courseLower a with
    | none => rw [hal] at ha; cases ha
    | some lc =>
      unfold courseFilterPass
      rw [hal, ih fun r hr => h r (List.mem_cons_of_mem a hr), List.filter_cons]
      have hm : courseMatches courseFilter a = charsContains lc (lowerChars courseFilter) := by
        unfold courseMatches
        rw [hal]
      rw [hm]

/-- Membership through the (non-throwing) player and date passes. -/
lemma mem_applyPlayerDate (l : List Round) (allUsers : List User)
    (playerFilter dateFilter : String) (r : Round) :
    r ∈ applyPlayerDate l allUsers playerFilter dateFilter ↔
      r ∈ l ∧
      (playerFilter = "" ∨
        (match findPlayerByName allUsers playerFilter with
          | some targetUser => targetUser.uid ∈ r.players
          | none => True)) ∧
      (dateFilter = "" ∨ r.date = dateFilter) := by
  unfold applyPlayerDate
  cases hfind : findPlayerByName allUsers playerFilter with
  | none =>
    by_cases hp : playerFilter = "" <;> by_cases hd : dateFilter = "" <;>
      simp [hp, hd, hfind, List.mem_filter]
  | some targetUser =>
    by_cases hp : playerFilter = "" <;> by_cases hd : dateFilter = "" <;>
      simp [hp, hd, hfind, List.mem_filter]
    all_goals tauto

/-- On round lists on which the effect completes — every round the
legacy string variant — the fallible run is exactly the total
`filterRounds` model. -/
lemma filterRoundsRun_eq_filterRounds (rounds : List Round) (allUsers : List User)
    (courseFilter playerFilter dateFilter : String)
    (h : ∀ r ∈ rounds, (Round.courseLower r).isSome = true) :
    filterRoundsRun rounds allUsers courseFilter playerFilter dateFilter =
      some (filterRounds rounds allUsers courseFilter playerFilter dateFilter) := by
  unfold filterRoundsRun filterRounds applyPlayerDate
  by_cases hc : courseFilter ≠ ""
  · rw [if_pos hc, if_pos hc, courseFilterPass_some h]
    have hfe : rounds.filter (courseMatches courseFilter) =
        rounds.filter (fun r => containsLower (Round.courseText r) courseFilter) := by
      apply List.filter_congr
      intro r hr
      have hrs := h r hr
      cases hcl : r.course with
      | legacyName s =>
        unfold courseMatches Round.courseLower Round.courseText containsLower
        rw [hcl]
      | snapshot c =>
        unfold Round.courseLower at hrs
        rw [hcl] at hrs
        cases hrs
    rw [hfe]
  · rw [if_neg hc, if_neg hc]

/-- C5 (amended): round-history filtering is conjunctive over the three
independent filters whenever the filtering effect completes — but with
a non-empty course filter it completes only when every fetched round
stores the legacy string course name: the course snapshots `NewRound`
itself persists make `round.course.toLowerCase()` throw, the effect
aborts, and no filtered output is produced (first conjunct).  When the
course filter is empty or all fetched rounds are legacy, the output
exists and a round appears in it iff it is fetched and satisfies every
filter whose value is non-empty (case-insensitive substring on the
course name, resolved-player membership, exact date); a filter left at
its empty default excludes no round. -/
theorem filter_rounds_run_conjunctive (rounds : List Round) (allUsers : List User)
    (courseFilter playerFilter dateFilter : String) :
    (courseFilter ≠ "" → (∃ r ∈ rounds, Round.courseLower r = none) →
      filterRoundsRun rounds allUsers courseFilter playerFilter dateFilter = none) ∧
    ((courseFilter = "" ∨ ∀ r ∈ rounds, (Round.courseLower r).isSome = true) →
      ∃ out, filterRoundsRun rounds allUsers courseFilter playerFilter dateFilter = some out ∧
        ∀ r, r ∈ out ↔ r ∈ rounds ∧
          (courseFilter = "" ∨ courseMatches courseFilter r = true) ∧
          (playerFilter = "" ∨
            (match findPlayerByName allUsers playerFilter with
              | some targetUser => targetUser.uid ∈ r.players
              | none => True)) ∧
          (dateFilter = "" ∨ r.date = dateFilter)) := by
  constructor
  · intro hc hex
    obtain ⟨r, hr, hn⟩ := hex
    unfold filterRoundsRun
    rw [if_pos hc, courseFilterPass_none r hr hn]
  · intro hor
    by_cases hc : courseFilter = ""
    · have hrun : filterRoundsRun rounds allUsers courseFilter playerFilter dateFilter =
          some (applyPlayerDate rounds allUsers playerFilter dateFilter) := by
        unfold filterRoundsRun
        rw [if_neg (by simp [hc])]
      refine ⟨_, hrun, ?_⟩
      intro r
      rw [mem_applyPlayerDate]
      simp [hc]
    · have hall : ∀ r ∈ rounds, (Round.courseLower r).isSome = true := by
        rcases hor with hc' | hall
        · exact absurd hc' hc
        · exact hall
      have hrun : filterRoundsRun rounds allUsers courseFilter playerFilter dateFilter =
          some (applyPlayerDate (rounds.filter (courseMatches courseFilter)) allUsers
            playerFilter dateFilter) := by
        unfold filterRoundsRun
        rw [if_pos hc, courseFilterPass_some hall]
      refine ⟨_, hrun, ?_⟩
      intro r
      rw [mem_applyPlayerDate, List.mem_filter]
      simp [hc]
      tauto

/-- `List.find?` returns the first element satisfying the predicate. -/
lemma find?_first {α : Type} (p : α → Bool) (pre post : List α) (u : α)
    (hu : p u = true) (hpre : ∀ v ∈ pre, ¬ p v = true) :
    (pre ++ u :: post).find? p = some u := by
  induction pre with
  | nil => simp [List.find?_cons_of_pos, hu]
  | cons v vs ih =>
    rw [List.cons_append, List.find?_cons_of_neg]
    · exact ih fun w hw => hpre w (List.mem_cons_of_mem v hw)
    · simpa using hpre v (List.mem_cons_self v vs)

/-- C10: when the player-name search string is non-empty but matches no
fetched user's name, the player filter is skipped — the output is the
same as with the player filter left empty, so no round is excluded by
it; and when it does resolve, the identifier used for the membership
filter is that of the first matching user in fetched order. -/
theorem player_filter_resolution (rounds : List Round) (allUsers : List User)
    (courseFilter playerFilter dateFilter : String) :
    (playerFilter ≠ "" →
      (∀ u ∈ allUsers, ¬ containsLower u.name playerFilter = true) →
      filterRounds rounds allUsers courseFilter playerFilter dateFilter =
        filterRounds rounds allUsers courseFilter "" dateFilter) ∧
    (∀ pre u post, allUsers = pre ++ u :: post →
      containsLower u.name playerFilter = true →
      (∀ v ∈ pre, ¬ containsLower v.name playerFilter = true) →
      findPlayerByName allUsers playerFilter = some u) ∧
    (∀ u : User, playerFilter ≠ "" →
      findPlayerByName allUsers playerFilter = some u →
      filterRounds rounds allUsers "" playerFilter "" =
        rounds.filter (fun r => r.players.contains u.uid)) := by
  refine ⟨?_, ?_, ?_⟩
  · intro hp hnone
    have hfind : findPlayerByName allUsers playerFilter = none :=
      List.find?_eq_none.mpr fun u hu => by simpa using hnone u hu
    simp [filterRounds, hfind, hp]
  · intro pre u post heq hu hpre
    subst heq
    exact find?_first _ pre post u hu hpre
  · intro u hp hfind
    simp [filterRounds, hfind, hp]

/-- A concrete legacy round used by witnesses. -/
def exRound : Round :=
  { courseId := "c1", courseName := "Pebble", course := .legacyName "Pebble",
    date := "2024-05-01", players := ["A"],
    scores := [{ uid := "A", holes := [4, 4] }],
    holeCount := 2, par := 8, createdAt := 0 }

/-- Witness for `player_filter_resolution`: a search string matching no
user skips the player filter on a concrete round list. -/
theorem player_filter_resolution_witness :
    ("zzz" : String) ≠ "" ∧
    filterRounds [exRound] [exUserA] "" "zzz" "" = filterRounds [exRound] [exUserA] "" "" "" :=
  ⟨by decide,
    (player_filter_resolution [exRound] [exUserA] "" "zzz" "").1 (by decide) (by decide)⟩

/-- JS `rating || 0` equals `Option.getD 0` (an explicit `0` is falsy
but the default is `0` as well). -/
lemma jsOrRat_zero (x : Option ℚ) : jsOrRat x 0 = x.getD 0 := by
  cases x with
  | none => rfl
  | some v => by_cases hv : v = 0 <;> simp [jsOrRat, hv]

/-- JS `isPublic || false` equals `Option.getD false`. -/
lemma jsOrBool_false (x : Option Bool) : jsOrBool x false = x.getD false := by
  cases x with
  | none => rfl
  | some v => cases v <;> rfl

/-- JS `amenities || []` equals `Option.getD []` (arrays are truthy). -/
lemma jsOrList_nil (x : Option (List String)) : jsOrList x [] = x.getD [] := by
  cases x <;> rfl

/-- The course record C6 says a successful `createCourse` writes:
the four required fields, the creator stamp, both timestamps set to the
creation time, and the spec's defaults (`getD`) for visibility,
amenities, rating and slope. -/
def stampedCourse (p : CoursePayload) (userId : String) (now : Nat) (newId : String)
    (name : String) (location : Location) (holes par : Nat) : Course :=
  { id := newId, name := name, location := location, holes := holes, par := par
    rating := p.rating.getD 0, slope := p.slope.getD 0
    amenities := p.amenities.getD [], phone := p.phone, website := p.website
    createdAt := now, updatedAt := now, createdBy := userId
    isPublic := p.isPublic.getD false }

/-- C6: `createCourse` rejects a payload missing any of
name/location/holes/par with an error and leaves the course collection
unchanged (no write is issued); with all four present (and the
non-empty user and document ids the real environment guarantees) it
appends exactly one course record stamped with the creating user and
the creation/update timestamp, with visibility defaulted to private
(`false`), amenities defaulted to `[]`, and rating and slope defaulted
to `0` when absent. -/
theorem create_course_spec (p : CoursePayload) (userId : String) (now : Nat)
    (newId : String) (courses : List Course) :
    ((p.name = none ∨ p.location = none ∨ p.holes = none ∨ p.par = none) →
      ∃ msg, createCourse p userId now newId courses = (courses, some msg)) ∧
    (∀ (name : String) (location : Location) (holes par : Nat),
      p.name = some name → p.location = some location → p.holes = some holes →
      p.par = some par → userId ≠ "" → newId ≠ "" →
      createCourse p userId now newId courses =
        (courses ++ [stampedCourse p userId now newId name location holes par], none)) := by
  constructor
  · intro hmiss
    unfold createCourse
    by_cases hu : userId = ""
    · rw [if_pos hu]
      exact ⟨_, rfl⟩
    · rw [if_neg hu]
      have hne : missingFields p ≠ [] := by
        rcases hmiss with h | h | h | h
        · exact List.ne_nil_of_mem
            (show "name" ∈ missingFields p by unfold missingFields; simp [h])
        · exact List.ne_nil_of_mem
            (show "location" ∈ missingFields p by unfold missingFields; simp [h])
        · exact List.ne_nil_of_mem
            (show "holes" ∈ missingFields p by unfold missingFields; simp [h])
        · exact List.ne_nil_of_mem
            (show "par" ∈ missingFields p by unfold missingFields; simp [h])
      rw [if_pos hne]
      exact ⟨_, rfl⟩
  · intro name location holes par hn hl hh hp hu hid
    unfold createCourse
    rw [if_neg hu]
    have hmf : missingFields p = [] := by
      unfold missingFields
      simp [hn, hl, hh, hp]
    rw [if_neg (by simp [hmf])]
    simp only [hn, hl, hh, hp]
    rw [if_neg hid]
    unfold stampedCourse
    rw [jsOrRat_zero, jsOrRat_zero, jsOrBool_false, jsOrList_nil]

/-- A concrete location used by witness payloads. -/
def exLoc : Location := { address := "1 Golf Way", lat := 0, lng := 0 }

/-- A payload with the required `par` field absent. -/
def exPayloadNoPar : CoursePayload :=
  { name := some "Pebble", location := some exLoc, holes := some 18, par := none }

/-- A payload with all four required fields present. -/
def exPayloadFull : CoursePayload :=
  { name := some "Pebble", location := some exLoc, holes := some 18, par := some 72 }

/-- Witness for `create_course_spec`: the missing-`par` payload is
rejected with the collection unchanged, and the complete payload writes
exactly one stamped, defaulted record. -/
theorem create_course_spec_witness :
    ((exPayloadNoPar.name = none ∨ exPayloadNoPar.location = none ∨
        exPayloadNoPar.holes = none ∨ exPayloadNoPar.par = none) ∧
      (∃ msg, createCourse exPayloadNoPar "u1" 7 "id1" [] = ([], some msg))) ∧
    createCourse exPayloadFull "u1" 7 "id1" [] =
      ([stampedCourse exPayloadFull "u1" 7 "id1" "Pebble" exLoc 18 72], none) :=
  ⟨⟨by decide, (create_course_spec exPayloadNoPar "u1" 7 "id1" []).1 (by decide)⟩,
    (create_course_spec exPayloadFull "u1" 7 "id1" []).2 "Pebble" exLoc 18 72
      rfl rfl rfl rfl (by decide) (by decide)⟩

/-- `lexLt` is irreflexive. -/
lemma lexLt_irrefl : ∀ a : List Char, lexLt a a = false := by
  intro a
  induction a with
  | nil => rfl
  | cons x xs ih =>
    unfold lexLt
    rw [if_neg (lt_irrefl _), if_pos rfl]
    exact ih

/-- `lexLt` is transitive. -/
lemma lexLt_trans : ∀ a b c : List Char,
    lexLt a b = true → lexLt b c = true → lexLt a c = true := by
  intro a
  induction a with
  | nil =>
    intro b c hab hbc
    cases c with
    | nil =>
      cases b with
      | nil => exact hab
      | cons y ys => simp [lexLt] at hbc
    | cons z zs => rfl
  | cons x xs ih =>
    intro b c hab hbc
    cases b with
    | nil => simp [lexLt] at hab
    | cons y ys =>
      cases c with
      | nil => simp [lexLt] at hbc
      | cons z zs =>
        unfold lexLt at hab hbc ⊢
        by_cases h1 : x.toNat < y.toNat
        · by_cases h2 : y.toNat < z.toNat
          · rw [if_pos (by omega)]
          · rw [if_neg h2] at hbc
            by_cases h3 : y.toNat = z.toNat
            · rw [if_pos (by omega)]
            · rw [if_neg h3] at hbc
              cases hbc
        · rw [if_neg h1] at hab
          by_cases h3 : x.toNat = y.toNat
          · rw [if_pos h3] at hab
            by_cases h2 : y.toNat < z.toNat
            · rw [if_pos (by omega)]
            · rw [if_neg h2] at hbc
              by_cases h4 : y.toNat = z.toNat
              · rw [if_neg (by omega), if_pos (by omega)]
                rw [if_pos h4] at hbc
                exact ih ys zs hab hbc
              · rw [if_neg h4] at hbc
                cases hbc
          · rw [if_neg h3] at hab
            cases hab

/-- `lexLt` is total: two lists are related one way or the other, or equal. -/
lemma lexLt_total : ∀ a b : List Char,
    lexLt a b = true ∨ lexLt b a = true ∨ a = b := by
  intro a
  induction a with
  | nil =>
    intro b
    cases b with
    | nil => exact Or.inr (Or.inr rfl)
    | cons y ys => exact Or.inl rfl
  | cons x xs ih =>
    intro b
    cases b with
    | nil => exact Or.inr (Or.inl rfl)
    | cons y ys =>
      by_cases h1 : x.toNat < y.toNat
      · exact Or.inl (by unfold lexLt; rw [if_pos h1])
      · by_cases h2 : y.toNat < x.toNat
        · exact Or.inr (Or.inl (by unfold lexLt; rw [if_pos h2]))
        · have hts : x.toNat = y.toNat := by omega
          have hxy : x = y := Char.eq_of_val_eq (UInt32.toNat.inj hts)
          rcases ih ys with h | h | h
          · exact Or.inl (by unfold lexLt; rw [if_neg h1, if_pos (by omega)]; exact h)
          · exact Or.inr (Or.inl
              (by unfold lexLt; rw [if_neg h2, if_pos (by omega)]; exact h))
          · exact Or.inr (Or.inr (by rw [hxy, h]))

/-- `lexLt` is asymmetric. -/
lemma lexLt_asymm {a b : List Char} (h : lexLt a b = true) : lexLt b a = false := by
  by_contra h'
  have hba : lexLt b a = true := by revert h'; cases lexLt b a <;> simp
  have := lexLt_trans a b a h hba
  rw [lexLt_irrefl] at this
  cases this

/-- `strLe` is reflexive. -/
lemma strLe_refl (s : String) : strLe s s = true := by
  unfold strLe strLt
  rw [lexLt_irrefl]
  rfl

/-- `strLe` is total: a failed comparison holds the other way round. -/
lemma strLe_of_not_strLe {a b : String} (h : ¬ strLe a b = true) : strLe b a = true := by
  unfold strLe strLt at h ⊢
  have hlt : lexLt b.data a.data = true := by
    revert h; cases lexLt b.data a.data <;> simp
  rw [lexLt_asymm hlt]
  rfl

/-- `strLe` is transitive. -/
lemma strLe_trans {a b c : String} (h1 : strLe a b = true) (h2 : strLe b c = true) :
    strLe a c = true := by
  unfold strLe strLt at h1 h2 ⊢
  have hba : lexLt b.data a.data = false := by
    revert h1; cases lexLt b.data a.data <;> simp
  have hcb : lexLt c.data b.data = false := by
    revert h2; cases lexLt c.data b.data <;> simp
  have hca : lexLt c.data a.data = false := by
    by_contra h'
    have hca' : lexLt c.data a.data = true := by
      revert h'; cases lexLt c.data a.data <;> simp
    rcases lexLt_total a.data b.data with h | h | h
    · have := lexLt_trans _ _ _ hca' h
      rw [hcb] at this
      cases this
    · rw [hba] at h
      cases h
    · rw [h] at hca'
      rw [hca'] at hcb
      cases hcb
  rw [hca]
  rfl

/-- `insertByName` only reorders: the result is a permutation of `c :: l`. -/
lemma insertByName_perm (c : Course) (l : List Course) :
    (insertByName c l).Perm (c :: l) := by
  induction l with
  | nil => simp [insertByName]
  | cons d ds ih =>
    unfold insertByName
    by_cases hd : strLe c.name d.name = true
    · rw [if_pos hd]
    · rw [if_neg hd]
      exact .trans (.cons d ih) (.swap c d ds)

/-- The name sort only reorders the courses. -/
lemma sortByNameAsc_perm (l : List Course) : (sortByNameAsc l).Perm l := by
  induction l with
  | nil => simp [sortByNameAsc]
  | cons c cs ih => exact .trans (insertByName_perm c (sortByNameAsc cs)) (.cons c ih)

/-- Membership is preserved by the name sort. -/
lemma mem_sortByNameAsc {c : Course} {l : List Course} : c ∈ sortByNameAsc l ↔ c ∈ l :=
  (sortByNameAsc_perm l).mem_iff

/-- `insertByName` preserves ascending name order. -/
lemma insertByName_pairwise (c : Course) (l : List Course)
    (h : l.Pairwise (fun a b => strLe a.name b.name = true)) :
    (insertByName c l).Pairwise (fun a b => strLe a.name b.name = true) := by
  induction l with
  | nil => simp [insertByName]
  | cons d ds ih =>
    rw [List.pairwise_cons] at h
    unfold insertByName
    by_cases hd : strLe c.name d.name = true
    · rw [if_pos hd, List.pairwise_cons]
      refine ⟨?_, List.pairwise_cons.mpr h⟩
      intro w hw
      rcases List.mem_cons.mp hw with rfl | hw
      · exact hd
      · exact strLe_trans hd (h.1 w hw)
    · rw [if_neg hd, List.pairwise_cons]
      refine ⟨?_, ih h.2⟩
      intro w hw
      have hw' := (insertByName_perm c ds).mem_iff.mp hw
      rcases List.mem_cons.mp hw' with rfl | hw'
      · exact strLe_of_not_strLe hd
      · exact h.1 w hw'

/-- `getCourses` results are ordered by name ascending (before and after
the cap). -/
lemma sortByNameAsc_pairwise (l : List Course) :
    (sortByNameAsc l).Pairwise (fun a b => strLe a.name b.name = true) := by
  induction l with
  | nil => simp [sortByNameAsc]
  | cons c cs ih => exact insertByName_pairwise c (sortByNameAsc cs) ih

/-- With a truthy cap the query result is the capped untruncated result. -/
lemma getCourses_take (n : Nat) (uid term : Option String) (courses : List Course)
    (hnz : n ≠ 0) :
    getCourses ⟨some n, uid, term⟩ courses =
      (getCourses ⟨none, uid, term⟩ courses).take n ∧
    (getCourses ⟨some n, uid, term⟩ courses).length ≤ n := by
  have ht : optNatTruthy (some n) = true := by simp [optNatTruthy, hnz]
  have hf : ¬ (optNatTruthy (none : Option Nat) = true) := by simp [optNatTruthy]
  constructor
  · simp only [getCourses]
    rw [if_pos ht, if_neg hf]
    simp
  · simp only [getCourses]
    rw [if_pos ht]
    simp only [Option.getD_some]
    exact List.length_take_le n _

/-- C7 (amended range): `getCourses` always returns courses ordered by
name ascending; a truthy result cap truncates the untruncated result to
at most that many entries; and a course is in the (untruncated) result
iff it is stored, passes the owner filter when an owner id is supplied
and the public-only filter otherwise, and — when a non-empty search
term is supplied — its name lies in the CLOSED lexicographic range
`[term, term ++ '']` the query actually issues (the spec's half-open
variant fails, see the counterexample). -/
theorem get_courses_query (options : GetCoursesOptions) (courses : List Course) :
    (getCourses options courses).Pairwise (fun c d => strLe c.name d.name = true) ∧
    (∀ n, options.limit = some n → n ≠ 0 →
      getCourses options courses =
        (getCourses { options with limit := none } courses).take n ∧
      (getCourses options courses).length ≤ n) ∧
    (∀ c, c ∈ getCourses { options with limit := none } courses ↔
      (c ∈ courses ∧
        (optStrTruthy options.userId = true → c.createdBy = options.userId.getD "") ∧
        (optStrTruthy options.userId = false → c.isPublic = true) ∧
        (optStrTruthy options.searchTerm = true →
          strLe (options.searchTerm.getD "") c.name = true ∧
          strLe c.name (options.searchTerm.getD "" ++ highSuffix) = true))) := by
  obtain ⟨lim, uid, term⟩ := options
  refine ⟨?_, ?_, ?_⟩
  · simp only [getCourses]
    split_ifs with h
    all_goals
      first
      | exact (sortByNameAsc_pairwise _).sublist (List.take_sublist _ _)
      | exact sortByNameAsc_pairwise _
  · intro n hn hnz
    have hl : lim = some n := hn
    subst hl
    exact getCourses_take n uid term courses hnz
  · intro c
    cases hu : optStrTruthy uid <;> cases hs : optStrTruthy term <;>
      simp [getCourses, hu, hs, optNatTruthy, mem_sortByNameAsc, List.mem_filter] <;>
      tauto

/-- The course whose name is exactly the search term with the
`''` sentinel appended. -/
def exCourseEdge : Course :=
  { id := "c1", name := "a" ++ highSuffix, location := exLoc, holes := 18, par := 72,
    createdAt := 0, updatedAt := 0, createdBy := "u", isPublic := true }

/-- C7 counterexample: searching for `"a"` returns the stored public
course named `"a" ++ ''`, whose name is NOT in the spec's half-open
range `[term, term ++ '')` — the query's range is closed at the
top, so the claim's "only courses whose name falls in the half-open
range are returned" is false at this input. -/
theorem get_courses_half_open_counterexample :
    getCourses { searchTerm := some "a" } [exCourseEdge] = [exCourseEdge] ∧
    ¬ specHalfOpenNameRange "a" exCourseEdge.name := by
  constructor
  · decide
  · unfold specHalfOpenNameRange
    decide

/-- Witness for `get_courses_query`: a cap of 1 truncates the
untruncated result on a concrete collection. -/
theorem get_courses_query_witness :
    (some 1 = some 1 ∧ (1 : Nat) ≠ 0) ∧
    getCourses { limit := some 1 } [exCourseEdge] =
      (getCourses { limit := none } [exCourseEdge]).take 1 ∧
    (getCourses { limit := some 1 } [exCourseEdge]).length ≤ 1 :=
  ⟨⟨rfl, by decide⟩,
    (get_courses_query { limit := some 1 } [exCourseEdge]).2.1 1 rfl (by decide)⟩

/-- A stored course with 9 holes, selectable from the course combobox. -/
def exCourse9 : Course :=
  { id := "c9", name := "Nine Holes", location := exLoc, holes := 9, par := 36,
    createdAt := 0, updatedAt := 0, createdBy := "u", isPublic := true }

/-- C8 counterexample: with the 9-hole course selected through the
combobox while the scorecard hole-count state is still 18, validation
passes and the persisted round records `holeCount = 9` but stores an
18-entry score array — the claim's length invariant fails on a
persisted round. -/
theorem round_submission_length_counterexample :
    ∃ r : Round,
      handleSubmit (some exCourse9) "2024-01-01" ["A"] (initialScores [exUserA] 18) 0 =
        some r ∧
      ∃ s ∈ r.scores, s.holes.length ≠ r.holeCount := by
  exact ⟨mkRoundData exCourse9 "2024-01-01" ["A"] (initialScores [exUserA] 18) 0, rfl,
    by decide⟩

/-- C8 amended: every round `handleSubmit` persists has its score list
indexed exactly by its player list (the identifier sets coincide, with
multiplicity and order), each stored array is the scorecard's entered
array for that player, and the arrays' lengths equal the round's
recorded hole count only under the additional assumption that every
selected player's entered array has that length — the code does not
enforce it (the counterexample shows a persisted round violating it). -/
theorem round_submission_invariant (selectedCourse : Option Course) (roundDate : String)
    (selectedPlayers : List String) (scores : String → Option (List Int)) (now : Nat)
    (r : Round)
    (h : handleSubmit selectedCourse roundDate selectedPlayers scores now = some r) :
    r.scores.map (fun s => s.uid) = r.players ∧
    (∀ uid, uid ∈ r.players ↔ ∃ s ∈ r.scores, s.uid = uid) ∧
    (∀ s ∈ r.scores, s.holes = (scores s.uid).getD []) ∧
    ((∀ p ∈ selectedPlayers, ((scores p).getD []).length = r.holeCount) →
      ∀ s ∈ r.scores, s.holes.length = r.holeCount) := by
  unfold handleSubmit at h
  cases hv : validateForm selectedCourse selectedPlayers scores with
  | some msg => rw [hv] at h; cases h
  | none =>
    rw [hv] at h
    cases selectedCourse with
    | none => cases h
    | some c =>
      have hr : mkRoundData c roundDate selectedPlayers scores now = r :=
        Option.some.inj h
      subst hr
      refine ⟨?_, ?_, ?_, ?_⟩
      · simp [mkRoundData, Function.comp_def]
      · intro uid
        simp [mkRoundData]
      · intro s hs
        simp only [mkRoundData, List.mem_map] at hs
        obtain ⟨p, _, rfl⟩ := hs
        rfl
      · intro hlen s hs
        simp only [mkRoundData, List.mem_map] at hs ⊢
        obtain ⟨p, hp, rfl⟩ := hs
        exact hlen p hp

/-- The round persisted in the witness scenario: consistent 9-entry
scorecards on the 9-hole course. -/
def exRound9 : Round :=
  mkRoundData exCourse9 "2024-01-01" ["A"] (initialScores [exUserA] 9) 0

/-- Witness for `round_submission_invariant` on a consistent concrete
submission (9-entry arrays, 9-hole course). -/
theorem round_submission_invariant_witness :
    (handleSubmit (some exCourse9) "2024-01-01" ["A"] (initialScores [exUserA] 9) 0 =
      some exRound9) ∧
    (exRound9.scores.map (fun s => s.uid) = exRound9.players ∧
      (∀ uid, uid ∈ exRound9.players ↔ ∃ s ∈ exRound9.scores, s.uid = uid) ∧
      (∀ s ∈ exRound9.scores, s.holes = (initialScores [exUserA] 9 s.uid).getD []) ∧
      ((∀ p ∈ (["A"] : List String),
          ((initialScores [exUserA] 9 p).getD []).length = exRound9.holeCount) →
        ∀ s ∈ exRound9.scores, s.holes.length = exRound9.holeCount)) :=
  ⟨rfl, round_submission_invariant (some exCourse9) "2024-01-01" ["A"]
    (initialScores [exUserA] 9) 0 exRound9 rfl⟩

/-- C5 counterexample: `exRound9` is a round `NewRound` itself persists
(its `course` field is a course snapshot) and its course name
"Nine Holes" case-insensitively contains the course filter `"nine"` —
it satisfies every non-empty filter — yet the filtering effect throws
on `round.course.toLowerCase()` and produces no output at all (the
displayed list is never set), so no output contains the round: the
claim's "appears in the output iff it satisfies every non-empty
filter" is false at this input. -/
theorem filter_rounds_snapshot_counterexample :
    containsLower exRound9.courseName "nine" = true ∧
    filterRoundsRun [exRound9] [exUserA] "nine" "" "" = none ∧
    ∀ out, ¬ (filterRoundsRun [exRound9] [exUserA] "nine" "" "" = some out ∧
      exRound9 ∈ out) := by
  have hn : filterRoundsRun [exRound9] [exUserA] "nine" "" "" = none := by decide
  refine ⟨by decide, hn, ?_⟩
  intro out hout
  rw [hn] at hout
  exact Option.noConfusion hout.1

/-- Witness for `filter_rounds_run_conjunctive`: the error conjunct at
the snapshot round, and the completed-run conjunct at a concrete legacy
round matching the course filter. -/
theorem filter_rounds_run_conjunctive_witness :
    filterRoundsRun [exRound9] [exUserA] "nine" "" "" = none ∧
    ∃ out, filterRoundsRun [exRound] [exUserA] "peb" "" "" = some out ∧
      ∀ r, r ∈ out ↔ r ∈ [exRound] ∧
        ("peb" = "" ∨ courseMatches "peb" r = true) ∧
        ("" = "" ∨
          (match findPlayerByName [exUserA] "" with
            | some targetUser => targetUser.uid ∈ r.players
            | none => True)) ∧
        ("" = "" ∨ r.date = "") :=
  ⟨(filter_rounds_run_conjunctive [exRound9] [exUserA] "nine" "" "").1 (by decide)
      ⟨exRound9, List.mem_cons_self _ _, rfl⟩,
    (filter_rounds_run_conjunctive [exRound] [exUserA] "peb" "" "").2 (Or.inr (by decide))⟩

end BuddiesGolf
